import Mathlib

/-!
Verification of the xenoClient request/response correlation engine.

The definitions below are a shallow embedding of the TypeScript sources:

* src/src/databaseManager.ts  — class DatabaseManager (constructor, connect
  message handler, createDatabase),
* src/src/database.ts         — class Database, revision V1 (inline key checks,
  the for-in loop in deleteMany),
* src/unnamed/part_002        — class Database, revision V2 (validateKey,
  validateArrayOfKeys, array methods),
* src/src/types.ts and src/unnamed/part_000 — the Payload / Response shapes.

JavaScript promises are modelled as single-assignment cells, the pending map
(a JS Map) as an insertion-ordered association list, and the single-threaded
event loop as a step function over explicit events (a submission reaching
makeReq, an inbound socket message, an armed timeout callback firing, and a
transport readyState transition).  Each request record carries a ghost field
recording when its cell was settled; it is used only to state the
exactly-once settlement properties and is written exactly when a cell moves
from unset to set, which is how a JS promise behaves.
-/

/-- Socket readyState values of the WebSocket API; the manager field
webSocket is optional, so the machine state stores an Option. -/
inductive ReadyState
  | connecting
  | opened
  | closing
  | closed
deriving Repr, DecidableEq

/-- JSON-ish values carried in payloads and responses.  undef models the
JavaScript undefined that appears when a response has no data field. -/
inductive Val
  | undef
  | str (s : String)
  | int (n : Int)
  | bool (b : Bool)
deriving Repr, DecidableEq

/-- The method-specific part of a wire payload (RawPayload in types.ts and
src/unnamed/part_000). -/
inductive RawPayload
  | all
  | has (key : String)
  | get (key : String)
  | set (key : String) (value : Val)
  | del (key : String)
  | getMany (keys : List String)
  | deleteMany (keys : List String)
  | setMany (data : List (String × Val))
  | pop (key : String)
  | shift (key : String)
  | push (key : String) (value : Val)
  | unshift (key : String) (value : Val)
  | slice (key : String) (start : Int) (stop : Option Int)
deriving Repr, DecidableEq

/-- The upper-case method tag serialized into the wire payload. -/
def RawPayload.method : RawPayload → String
  | .all => "ALL"
  | .has _ => "HAS"
  | .get _ => "GET"
  | .set _ _ => "SET"
  | .del _ => "DELETE"
  | .getMany _ => "GET_MANY"
  | .deleteMany _ => "DELETE_MANY"
  | .setMany _ => "SET_MANY"
  | .pop _ => "POP"
  | .shift _ => "SHIFT"
  | .push _ _ => "PUSH"
  | .unshift _ _ => "UNSHIFT"
  | .slice _ _ _ => "SLICE"

/-- A full wire payload: the spread of the raw payload with requestId and the
handle path, as built in makeReq. -/
structure Payload where
  requestId : String
  path : String
  raw : RawPayload
deriving Repr, DecidableEq

/-- Terminal outcomes of a request settlement.  value models
resolve(response.data), serverError models reject on a response with an
error field, timedOut models the reject inside the 2500 ms timer. -/
inductive Settlement
  | value (v : Val)
  | serverError (e : String)
  | timedOut
deriving Repr, DecidableEq

/-- One request record: the id it was registered under, its promise cell
(none while pending, some once settled — a JS promise settles at most once),
and whether its expiry timer is still armed (clearTimeout disarms it). -/
structure ReqRec where
  rid : String
  cell : Option Settlement
  timerArmed : Bool
deriving Repr, DecidableEq

/-- Errors thrown synchronously by the client.  Each constructor corresponds
to one throw site; the TypeScript message is given in the comment. -/
inductive DbErr
  | socketClosed          -- "WebSocket connection has already been closed!"
  | notConnected          -- createDatabase: "Please do await connect() ..."
  | invalidKeyEmpty       -- V1: "Key must be of type string with length > 0"
  | invalidKey            -- V2: "Key must be of type string with length > 0 and < 255"
  | invalidKeyAt (i : Nat)    -- batch ops: invalid key reported at index i
  | badElementAt (i : Nat)    -- setMany: element without key/value fields
  | badValueAt (i : Nat)      -- setMany: value rejected by the schema, at index i
  | schemaReject          -- set: schema.safeParse failure
deriving Repr, DecidableEq

/-- The manager state: immutable connection parameters, the optional socket
readyState, every request record ever created (indexed by creation order; the
records persist because callers hold the promises), the pending map
(requests : Map of requestId to the record index), the list of payloads
written to the socket, and the ghost settlement log. -/
structure MState where
  auth : String
  socketAddress : String
  ready : Option ReadyState
  reqs : List ReqRec
  table : List (String × Nat)
  sent : List Payload
  settledLog : List Nat
deriving Repr, DecidableEq

/-- JS Map.prototype.set on the association list: replace in place when the
key is present, append otherwise. -/
def mapSet : List (String × Nat) → String → Nat → List (String × Nat)
  | [], k, v => [(k, v)]
  | p :: t, k, v => if p.1 = k then (k, v) :: t else p :: mapSet t k v

/-- JS Map.prototype.get. -/
def mapGet : List (String × Nat) → String → Option Nat
  | [], _ => none
  | p :: t, k => if p.1 = k then some p.2 else mapGet t k

/-- JS Map.prototype.delete.  The map never holds two entries with the same
key, so removing every pair with the key equals removing the one entry. -/
def mapDel (m : List (String × Nat)) (k : String) : List (String × Nat) :=
  m.filter (fun p => p.1 ≠ k)

/-- Settle the promise cell of request i (resolve or reject).  A cell that is
already set is left untouched, as with a JS promise; the ghost log records
the index exactly when the cell moves from unset to set. -/
def settleCell (st : MState) (i : Nat) (s : Settlement) : MState :=
  match st.reqs[i]? with
  | some r =>
    match r.cell with
    | none =>
      { st with reqs := st.reqs.set i { r with cell := some s },
                settledLog := st.settledLog ++ [i] }
    | some _ => st
  | none => st

/-- clearTimeout(request.timeout): the expiry timer of request i stops being
armed. -/
def disarmTimer (st : MState) (i : Nat) : MState :=
  match st.reqs[i]? with
  | some r => { st with reqs := st.reqs.set i { r with timerArmed := false } }
  | none => st

/-- setTimeout(..., 2500): arm the expiry timer of request i. -/
def armTimer (st : MState) (i : Nat) : MState :=
  match st.reqs[i]? with
  | some r => { st with reqs := st.reqs.set i { r with timerArmed := true } }
  | none => st

/-- The fixed expiry window passed to setTimeout in makeReq. -/
def requestTimeoutMs : Nat := 2500

/-- Observable actions of one submission, in the order they are performed by
makeReq; used to state the happens-before claims. -/
inductive SubEv
  | register (rid : String)
  | send (p : Payload)
  | timerStart (rid : String)
deriving Repr, DecidableEq

/-- Database.makeReq of src/src/database.ts (identical in
src/unnamed/part_002): throw unless the socket is open; create the request
record; requests.set(requestId, request); webSocket.send of the payload
spread with requestId and path; then setTimeout arming the 2500 ms expiry.
The returned triple is the successor state, the index of the new record and
the action sequence in source order. -/
def makeReq (st : MState) (path rid : String) (pl : RawPayload) :
    Except DbErr (MState × Nat × List SubEv) :=
  if st.ready = some ReadyState.opened then
    let i := st.reqs.length
    let st1 := { st with reqs := st.reqs ++ [ReqRec.mk rid none false],
                         table := mapSet st.table rid i }
    let st2 := { st1 with sent := st1.sent ++ [Payload.mk rid path pl] }
    Except.ok (armTimer st2 i, i,
      [SubEv.register rid, SubEv.send (Payload.mk rid path pl),
       SubEv.timerStart rid])
  else
    Except.error DbErr.socketClosed

/-- The callback passed to setTimeout in src/src/database.ts lines 35-38:
requests.delete(requestId) then request.reject(Error("Request timed out")).
It runs only when the timer is still armed (clearTimeout otherwise). -/
def fireTimeout (st : MState) (i : Nat) : MState :=
  match st.reqs[i]? with
  | some r =>
    if r.timerArmed then
      let st1 := { st with table := mapDel st.table r.rid }
      settleCell (disarmTimer st1 i) i Settlement.timedOut
    else st
  | none => st

/-- An inbound socket message: either a byte string JSON.parse rejects, or a
parsed response envelope carrying a requestId and its data or error field
(or neither). -/
inductive RespField
  | dataF (v : Val)
  | errorF (e : String)
  | neitherF
deriving Repr, DecidableEq

inductive Wire
  | malformed
  | resp (rid : String) (f : RespField)
deriving Repr, DecidableEq

/-- Result of running the message listener: raised models an exception
escaping the listener. -/
inductive HRes
  | raised
  | ok (st : MState)
deriving Repr, DecidableEq

/-- The message listener installed in DatabaseManager.connect, lines 28-36:
JSON.parse the message (an exception propagates out of the listener — there
is no try/catch); look up response.requestId; return when absent; reject on
an error field, otherwise resolve(response.data) — undefined when the field
is missing; clearTimeout; requests.delete. -/
def handleMessage (st : MState) (w : Wire) : HRes :=
  match w with
  | .malformed => .raised
  | .resp rid f =>
    match mapGet st.table rid with
    | none => .ok st
    | some i =>
      let s : Settlement :=
        match f with
        | .errorF e => .serverError e
        | .dataF v => .value v
        | .neitherF => .value Val.undef
      let st1 := settleCell st i s
      let st2 := disarmTimer st1 i
      .ok { st2 with table := mapDel st2.table rid }

/-- Events of the single-threaded event loop: an operation call reaching
makeReq (the requestId carried by the event is the randomUUID draw for that
call), delivery of an inbound message, an armed timeout callback firing, and
the transport changing the socket readyState (connect and the WebSocket
lifecycle). -/
inductive Ev
  | submit (path rid : String) (pl : RawPayload)
  | msg (w : Wire)
  | timeout (i : Nat)
  | sockState (r : Option ReadyState)
deriving Repr, DecidableEq

/-- One event-loop step.  A submission that throws leaves the state
unchanged; a listener that raises does not alter the table either. -/
def stepEv (st : MState) (e : Ev) : MState :=
  match e with
  | .submit path rid pl =>
    match makeReq st path rid pl with
    | .ok (st', _, _) => st'
    | .error _ => st
  | .msg w =>
    match handleMessage st w with
    | .ok st' => st'
    | .raised => st
  | .timeout i => fireTimeout st i
  | .sockState r => { st with ready := r }

/-- Run a list of events. -/
def runEvs (st : MState) (evs : List Ev) : MState := evs.foldl stepEv st

/-- Constructor options of DatabaseManager: the union of
url+auth and url+port+auth+secure?, discriminated by presence of port. -/
structure CtorOpts where
  url : String
  auth : String
  port : Option Nat
  secure : Option Bool
deriving Repr, DecidableEq

/-- The DatabaseManager constructor, src/src/databaseManager.ts lines 16-21:
auth is stored; socketAddress is the template string when port is present
(the s suffix exactly when secure is truthy) and the raw url otherwise. -/
def socketAddressOf (op : CtorOpts) : String :=
  match op.port with
  | some p => "ws" ++ (if op.secure = some true then "s" else "") ++ "://" ++ op.url ++ ":" ++ toString p
  | none => op.url

def mkManager (op : CtorOpts) : MState :=
  { auth := op.auth
    socketAddress := socketAddressOf op
    ready := none
    reqs := []
    table := []
    sent := []
    settledLog := [] }

/-- DatabaseManager.createDatabase, lines 49-54: throw unless the socket is
open, otherwise return the new handle (modelled by its bound path). -/
def createDatabase (st : MState) (path : String) : Except DbErr String :=
  if st.ready = some ReadyState.opened then Except.ok path
  else Except.error DbErr.notConnected

/-- V1 (src/src/database.ts) inline key check: !key is the empty string — a
String argument always satisfies the typeof test. -/
def keyCheckV1 (key : String) : Except DbErr Unit :=
  if key.length = 0 then Except.error DbErr.invalidKeyEmpty else Except.ok ()

namespace DatabaseV1

/-- Database.has of src/src/database.ts lines 53-56: key check, then a HAS
request. -/
def has (st : MState) (path rid key : String) : Except DbErr (MState × Nat × List SubEv) := do
  keyCheckV1 key
  makeReq st path rid (RawPayload.has key)

/-- Database.get of src/src/database.ts lines 58-61. -/
def get (st : MState) (path rid key : String) : Except DbErr (MState × Nat × List SubEv) := do
  keyCheckV1 key
  makeReq st path rid (RawPayload.get key)

/-- Database.delete of src/src/database.ts lines 69-72. -/
def del (st : MState) (path rid key : String) : Except DbErr (MState × Nat × List SubEv) := do
  keyCheckV1 key
  makeReq st path rid (RawPayload.del key)

/-- The validation loop of Database.getMany, src/src/database.ts lines 77-79:
for (const key of keys) iterates over the values, throwing at the first
falsy key with the index keys.indexOf(key). -/
def getManyCheck (keys : List String) : Except DbErr Unit :=
  keys.forM (fun key =>
    if key.length = 0 then Except.error (DbErr.invalidKeyAt (keys.indexOf key))
    else Except.ok ())

def getMany (st : MState) (path rid : String) (keys : List String) :
    Except DbErr (MState × Nat × List SubEv) := do
  getManyCheck keys
  makeReq st path rid (RawPayload.getMany keys)

/-- The validation loop of Database.deleteMany, src/src/database.ts lines
87-89: for (const key in keys) iterates over the INDEX STRINGS "0", "1", ...
of the array, not its elements, so the tested key is always a non-empty
string and the throw is unreachable. -/
def deleteManyCheck (keys : List String) : Except DbErr Unit :=
  (List.range keys.length).forM (fun n =>
    let key := toString n
    if key.length = 0 then Except.error (DbErr.invalidKeyAt (keys.indexOf key))
    else Except.ok ())

def deleteMany (st : MState) (path rid : String) (keys : List String) :
    Except DbErr (MState × Nat × List SubEv) := do
  deleteManyCheck keys
  makeReq st path rid (RawPayload.deleteMany keys)

end DatabaseV1

/-- V2 (src/unnamed/part_002) validateKey, lines 49-56, with shouldThrow
false: valid iff a non-empty string of length at most 255.  For a String
argument the !key and length tests coincide and the typeof test holds. -/
def validateKey (key : String) : Bool :=
  !(key.length == 0 || decide (255 < key.length))

/-- validateKey with shouldThrow true (the default). -/
def validateKeyE (key : String) : Except DbErr Unit :=
  if validateKey key then Except.ok () else Except.error DbErr.invalidKey

/-- V2 validateValueSchema: the optional zod schema is an injected
accept/reject capability; absent means accept everything. -/
def validateValueSchema (schema : Option (Val → Bool)) (v : Val) : Except DbErr Unit :=
  match schema with
  | none => Except.ok ()
  | some f => if f v then Except.ok () else Except.error DbErr.schemaReject

/-- V2 validateArrayOfKeys, src/unnamed/part_002 lines 58-68: reject the
first invalid key, reporting keys.indexOf(key). -/
def validateArrayOfKeys (keys : List String) : Except DbErr Unit :=
  keys.forM (fun key =>
    if validateKey key then Except.ok ()
    else Except.error (DbErr.invalidKeyAt (keys.indexOf key)))

namespace DatabaseV2

/-- Database.has of src/unnamed/part_002 lines 74-77. -/
def has (st : MState) (path rid key : String) : Except DbErr (MState × Nat × List SubEv) := do
  validateKeyE key
  makeReq st path rid (RawPayload.has key)

def get (st : MState) (path rid key : String) : Except DbErr (MState × Nat × List SubEv) := do
  validateKeyE key
  makeReq st path rid (RawPayload.get key)

def del (st : MState) (path rid key : String) : Except DbErr (MState × Nat × List SubEv) := do
  validateKeyE key
  makeReq st path rid (RawPayload.del key)

/-- Database.set of src/unnamed/part_002 lines 89-93: the key check runs
before the schema check. -/
def set (schema : Option (Val → Bool)) (st : MState) (path rid key : String) (v : Val) :
    Except DbErr (MState × Nat × List SubEv) := do
  validateKeyE key
  validateValueSchema schema v
  makeReq st path rid (RawPayload.set key v)

def deleteMany (st : MState) (path rid : String) (keys : List String) :
    Except DbErr (MState × Nat × List SubEv) := do
  validateArrayOfKeys keys
  makeReq st path rid (RawPayload.deleteMany keys)

def getMany (st : MState) (path rid : String) (keys : List String) :
    Except DbErr (MState × Nat × List SubEv) := do
  validateArrayOfKeys keys
  makeReq st path rid (RawPayload.getMany keys)

/-- The validation loop of Database.setMany, src/unnamed/part_002 lines
105-129: each element must carry both fields (always true of the typed
pair), its key must pass validateKey and its value the schema, with the
faulty index and field reported. -/
def setManyCheck (schema : Option (Val → Bool)) (data : List (String × Val)) :
    Except DbErr Unit :=
  data.forM (fun el =>
    if !(validateKey el.1) then Except.error (DbErr.invalidKeyAt (data.indexOf el))
    else
      match validateValueSchema schema el.2 with
      | Except.error _ => Except.error (DbErr.badValueAt (data.indexOf el))
      | Except.ok _ => Except.ok ())

def setMany (schema : Option (Val → Bool)) (st : MState) (path rid : String)
    (data : List (String × Val)) : Except DbErr (MState × Nat × List SubEv) := do
  setManyCheck schema data
  makeReq st path rid (RawPayload.setMany data)

end DatabaseV2

/-- Whether an Except result is a success. -/
def isOkE {ε α : Type} : Except ε α → Bool
  | Except.ok _ => true
  | Except.error _ => false

instance {ε α : Type} [DecidableEq ε] [DecidableEq α] : DecidableEq (Except ε α)
  | Except.ok a, Except.ok b =>
    if h : a = b then isTrue (by rw [h]) else isFalse (by intro hh; cases hh; exact h rfl)
  | Except.ok _, Except.error _ => isFalse (by intro h; cases h)
  | Except.error _, Except.ok _ => isFalse (by intro h; cases h)
  | Except.error e, Except.error f =>
    if h : e = f then isTrue (by rw [h]) else isFalse (by intro hh; cases hh; exact h rfl)

/-- A sample manager whose socket is open (ready set by the transport after
connect). -/
def mgr1 : MState :=
  { mkManager { url := "u", auth := "a", port := none, secure := none } with
      ready := some ReadyState.opened }

/-! ### List and map helper lemmas -/

theorem lt_of_get?_eq_some {α : Type} {l : List α} {i : Nat} {r : α}
    (h : l[i]? = some r) : i < l.length := by
  by_contra hh
  push_neg at hh
  rw [List.getElem?_eq_none hh] at h
  cases h

theorem set_concat_length {α : Type} (l : List α) (a b : α) :
    (l ++ [a]).set l.length b = l ++ [b] := by
  induction l with
  | nil => rfl
  | cons x t ih => simp [List.set, ih]

theorem map_rid_set (l : List ReqRec) (i : Nat) (r r' : ReqRec)
    (h : l[i]? = some r) (h2 : r'.rid = r.rid) :
    (l.set i r').map (fun x => x.rid) = l.map (fun x => x.rid) := by
  induction l generalizing i with
  | nil => cases h
  | cons x t ih =>
    cases i with
    | zero =>
      simp at h
      simp [List.set, h2, h]
    | succ n =>
      simp at h
      simp [List.set, ih n h]

theorem mem_mapSet (m : List (String × Nat)) (k : String) (v : Nat)
    (p : String × Nat) (h : p ∈ mapSet m k v) : p = (k, v) ∨ p ∈ m := by
  induction m with
  | nil => simpa [mapSet] using h
  | cons q t ih =>
    by_cases hq : q.1 = k
    · simp [mapSet, hq] at h
      rcases h with h | h
      · exact Or.inl h
      · exact Or.inr (List.mem_cons_of_mem _ h)
    · simp [mapSet, hq] at h
      rcases h with h | h
      · exact Or.inr (by simp [h])
      · rcases ih h with h1 | h1
        · exact Or.inl h1
        · exact Or.inr (List.mem_cons_of_mem _ h1)

theorem mapGet_mem (m : List (String × Nat)) (k : String) (v : Nat)
    (h : mapGet m k = some v) : (k, v) ∈ m := by
  induction m with
  | nil => cases h
  | cons q t ih =>
    by_cases hq : q.1 = k
    · simp [mapGet, hq] at h
      have hqv : q = (k, v) := by
        cases q
        simp_all
      rw [hqv]
      exact List.mem_cons_self _ _
    · simp [mapGet, hq] at h
      exact List.mem_cons_of_mem _ (ih h)

theorem mapGet_mapSet_self (m : List (String × Nat)) (k : String) (v : Nat) :
    mapGet (mapSet m k v) k = some v := by
  induction m with
  | nil => simp [mapSet, mapGet]
  | cons q t ih =>
    by_cases hq : q.1 = k
    · simp [mapSet, hq, mapGet]
    · simp [mapSet, hq, mapGet, ih]

theorem mem_mapDel (m : List (String × Nat)) (k : String) (p : String × Nat)
    (h : p ∈ mapDel m k) : p ∈ m ∧ p.1 ≠ k := by
  unfold mapDel at h
  have := List.mem_filter.mp h
  refine ⟨this.1, ?_⟩
  simpa using this.2

theorem not_mem_mapDel (m : List (String × Nat)) (k : String) (v : Nat) :
    (k, v) ∉ mapDel m k := by
  intro h
  exact (mem_mapDel m k _ h).2 rfl

/-! ### Frame lemmas for the promise-cell and timer helpers -/

theorem settleCell_frame (st : MState) (i : Nat) (s : Settlement) :
    (settleCell st i s).auth = st.auth ∧
    (settleCell st i s).socketAddress = st.socketAddress ∧
    (settleCell st i s).ready = st.ready ∧
    (settleCell st i s).table = st.table ∧
    (settleCell st i s).sent = st.sent ∧
    (settleCell st i s).reqs.length = st.reqs.length := by
  unfold settleCell
  split
  · split
    · simp
    · simp
  · simp

theorem disarmTimer_frame (st : MState) (i : Nat) :
    (disarmTimer st i).auth = st.auth ∧
    (disarmTimer st i).socketAddress = st.socketAddress ∧
    (disarmTimer st i).ready = st.ready ∧
    (disarmTimer st i).table = st.table ∧
    (disarmTimer st i).sent = st.sent ∧
    (disarmTimer st i).settledLog = st.settledLog ∧
    (disarmTimer st i).reqs.length = st.reqs.length := by
  unfold disarmTimer
  split
  · simp
  · simp

theorem armTimer_frame (st : MState) (i : Nat) :
    (armTimer st i).auth = st.auth ∧
    (armTimer st i).socketAddress = st.socketAddress ∧
    (armTimer st i).ready = st.ready ∧
    (armTimer st i).table = st.table ∧
    (armTimer st i).sent = st.sent ∧
    (armTimer st i).settledLog = st.settledLog ∧
    (armTimer st i).reqs.length = st.reqs.length := by
  unfold armTimer
  split
  · simp
  · simp

theorem settleCell_get?_ne (st : MState) (i : Nat) (s : Settlement) (j : Nat)
    (h : i ≠ j) : (settleCell st i s).reqs[j]? = st.reqs[j]? := by
  unfold settleCell
  split
  · split
    · simp [List.getElem?_set_ne h]
    · rfl
  · rfl

theorem disarmTimer_get?_ne (st : MState) (i : Nat) (j : Nat)
    (h : i ≠ j) : (disarmTimer st i).reqs[j]? = st.reqs[j]? := by
  unfold disarmTimer
  split
  · simp [List.getElem?_set_ne h]
  · rfl

theorem disarmTimer_get?_self (st : MState) (i : Nat) (r : ReqRec)
    (h : st.reqs[i]? = some r) :
    (disarmTimer st i).reqs[i]? = some { r with timerArmed := false } := by
  unfold disarmTimer
  rw [h]
  simp [List.getElem?_set_self (lt_of_get?_eq_some h)]

theorem settleCell_get?_self (st : MState) (i : Nat) (s : Settlement) (r : ReqRec)
    (h : st.reqs[i]? = some r) (hc : r.cell = none) :
    (settleCell st i s).reqs[i]? = some { r with cell := some s } := by
  unfold settleCell
  rw [h]
  simp [hc, List.getElem?_set_self (lt_of_get?_eq_some h)]

/-! ### Characterisations of the step functions -/

/-- What a successful makeReq produces. -/
theorem makeReq_ok (st : MState) (path rid : String) (pl : RawPayload)
    (h : st.ready = some ReadyState.opened) :
    makeReq st path rid pl = Except.ok
      ({ st with reqs := st.reqs ++ [ReqRec.mk rid none true],
                 table := mapSet st.table rid st.reqs.length,
                 sent := st.sent ++ [Payload.mk rid path pl] },
       st.reqs.length,
       [SubEv.register rid, SubEv.send (Payload.mk rid path pl), SubEv.timerStart rid]) := by
  unfold makeReq
  rw [if_pos h]
  unfold armTimer
  simp [List.getElem?_concat_length, set_concat_length]

theorem stepEv_submit_open (st : MState) (path rid : String) (pl : RawPayload)
    (h : st.ready = some ReadyState.opened) :
    stepEv st (Ev.submit path rid pl) =
      { st with reqs := st.reqs ++ [ReqRec.mk rid none true],
                table := mapSet st.table rid st.reqs.length,
                sent := st.sent ++ [Payload.mk rid path pl] } := by
  simp [stepEv, makeReq_ok st path rid pl h]

theorem stepEv_submit_closed (st : MState) (path rid : String) (pl : RawPayload)
    (h : ¬ st.ready = some ReadyState.opened) :
    stepEv st (Ev.submit path rid pl) = st := by
  simp [stepEv, makeReq, h]

/-- The settlement value the listener applies for each response shape. -/
def respSettlement : RespField → Settlement
  | .dataF v => .value v
  | .errorF e => .serverError e
  | .neitherF => .value Val.undef

theorem settleCell_table (st : MState) (i : Nat) (s : Settlement) :
    (settleCell st i s).table = st.table := (settleCell_frame st i s).2.2.2.1

theorem disarmTimer_table (st : MState) (i : Nat) :
    (disarmTimer st i).table = st.table := (disarmTimer_frame st i).2.2.2.1

theorem handleMessage_unknown (st : MState) (rid : String) (f : RespField)
    (h : mapGet st.table rid = none) :
    handleMessage st (Wire.resp rid f) = HRes.ok st := by
  simp [handleMessage, h]

theorem handleMessage_known (st : MState) (rid : String) (f : RespField) (i : Nat)
    (h : mapGet st.table rid = some i) :
    handleMessage st (Wire.resp rid f) =
      HRes.ok { disarmTimer (settleCell st i (respSettlement f)) i with
                table := mapDel st.table rid } := by
  cases f <;>
    simp [handleMessage, h, respSettlement, settleCell_table, disarmTimer_table]

theorem fireTimeout_armed (st : MState) (i : Nat) (r : ReqRec)
    (hr : st.reqs[i]? = some r) (ha : r.timerArmed = true) :
    fireTimeout st i =
      settleCell (disarmTimer { st with table := mapDel st.table r.rid } i) i
        Settlement.timedOut := by
  simp [fireTimeout, hr, ha]

/-! ### The two state invariants -/

/-- 1 when the record exists and its cell is set, 0 otherwise. -/
def cellCount : Option ReqRec → Nat
  | some r => if r.cell.isSome then 1 else 0
  | none => 0

/-- The ghost log holds an index exactly as often as that request has been
settled; together with cellCount this makes settlement exactly-once. -/
def SettleInv (st : MState) : Prop :=
  ∀ i, st.settledLog.count i = cellCount st.reqs[i]?

/-- The pending-table invariant: every entry of the map points at a record
with the same id whose cell is unset and whose timer is armed — i.e. every
key in the table names a request that is still pending. -/
def TableWF (st : MState) : Prop :=
  ∀ p ∈ st.table, ∃ r, st.reqs[p.2]? = some r ∧
    r.rid = p.1 ∧ r.cell = none ∧ r.timerArmed = true

theorem settleInv_settleCell (st : MState) (i : Nat) (s : Settlement)
    (h : SettleInv st) : SettleInv (settleCell st i s) := by
  intro j
  cases hr : st.reqs[i]? with
  | none => simp [settleCell, hr, h j]
  | some r =>
    cases hc : r.cell with
    | some x => simp [settleCell, hr, hc, h j]
    | none =>
      by_cases hij : i = j
      · subst hij
        have h0 := h i
        rw [hr] at h0
        simp only [cellCount, hc, Option.isSome_none, Bool.false_eq_true, if_false] at h0
        simp [settleCell, hr, hc, List.count_append, h0,
              List.getElem?_set_self (lt_of_get?_eq_some hr), cellCount]
      · have h0 := h j
        simp [settleCell, hr, hc, List.count_append,
              List.getElem?_set_ne hij, h0, List.count_cons, hij]

theorem settleInv_disarm (st : MState) (i : Nat)
    (h : SettleInv st) : SettleInv (disarmTimer st i) := by
  intro j
  cases hr : st.reqs[i]? with
  | none => simp [disarmTimer, hr, h j]
  | some r =>
    by_cases hij : i = j
    · subst hij
      have h0 := h i
      rw [hr] at h0
      simp [disarmTimer, hr, List.getElem?_set_self (lt_of_get?_eq_some hr),
            cellCount] at *
      exact h0
    · simp [disarmTimer, hr, List.getElem?_set_ne hij, h j]

theorem settleInv_step (st : MState) (e : Ev) (h : SettleInv st) :
    SettleInv (stepEv st e) := by
  cases e with
  | submit path rid pl =>
    by_cases hr : st.ready = some ReadyState.opened
    · rw [stepEv_submit_open st path rid pl hr]
      intro j
      have h0 := h j
      by_cases hj : j < st.reqs.length
      · simpa [List.getElem?_append_left hj] using h0
      · push_neg at hj
        rw [List.getElem?_eq_none hj] at h0
        by_cases hje : j = st.reqs.length
        · subst hje
          simpa [List.getElem?_concat_length, cellCount] using h0
        · have hlen : (st.reqs ++ [ReqRec.mk rid none true]).length ≤ j := by
            simp
            omega
          simpa [List.getElem?_eq_none hlen, cellCount] using h0
    · rw [stepEv_submit_closed st path rid pl hr]
      exact h
  | msg w =>
    cases w with
    | malformed => simpa [stepEv, handleMessage] using h
    | resp rid f =>
      cases hg : mapGet st.table rid with
      | none => simpa [stepEv, handleMessage_unknown st rid f hg] using h
      | some i =>
        have hh := handleMessage_known st rid f i hg
        simp only [stepEv, hh]
        intro j
        have := settleInv_disarm _ i (settleInv_settleCell st i (respSettlement f) h) j
        simpa using this
  | timeout i =>
    cases hr : st.reqs[i]? with
    | none => simpa [stepEv, fireTimeout, hr] using h
    | some r =>
      by_cases ha : r.timerArmed = true
      · simp only [stepEv, fireTimeout_armed st i r hr ha]
        have hbase : SettleInv { st with table := mapDel st.table r.rid } := h
        exact settleInv_settleCell _ i Settlement.timedOut (settleInv_disarm _ i hbase)
      · simpa [stepEv, fireTimeout, hr, ha] using h
  | sockState r => simpa [stepEv] using h

theorem tableWF_step (st : MState) (e : Ev) (h : TableWF st) :
    TableWF (stepEv st e) := by
  cases e with
  | submit path rid pl =>
    by_cases hr : st.ready = some ReadyState.opened
    · rw [stepEv_submit_open st path rid pl hr]
      intro p hp
      rcases mem_mapSet _ _ _ _ hp with hpe | hpm
      · subst hpe
        exact ⟨ReqRec.mk rid none true,
          by simp [List.getElem?_concat_length],
          rfl, rfl, rfl⟩
      · rcases h p hpm with ⟨r, hr1, hr2, hr3, hr4⟩
        exact ⟨r, by rw [List.getElem?_append_left (lt_of_get?_eq_some hr1)]; exact hr1,
          hr2, hr3, hr4⟩
    · rw [stepEv_submit_closed st path rid pl hr]
      exact h
  | msg w =>
    cases w with
    | malformed => simpa [stepEv, handleMessage] using h
    | resp rid f =>
      cases hg : mapGet st.table rid with
      | none => simpa [stepEv, handleMessage_unknown st rid f hg] using h
      | some i =>
        have hh := handleMessage_known st rid f i hg
        simp only [stepEv, hh]
        intro p hp
        simp only at hp
        rcases mem_mapDel _ _ _ hp with ⟨hpm, hpne⟩
        rcases h p hpm with ⟨r, hr1, hr2, hr3, hr4⟩
        rcases h _ (mapGet_mem _ _ _ hg) with ⟨ri, hri1, hri2, hri3, hri4⟩
        have hne : i ≠ p.2 := by
          intro hcontra
          subst hcontra
          rw [hr1] at hri1
          injection hri1 with hcast
          apply hpne
          rw [← hr2, hcast]
          exact hri2
        refine ⟨r, ?_, hr2, hr3, hr4⟩
        show (disarmTimer (settleCell st i (respSettlement f)) i).reqs[p.2]? = some r
        rw [disarmTimer_get?_ne _ i p.2 hne, settleCell_get?_ne _ i _ p.2 hne]
        exact hr1
  | timeout i =>
    cases hr : st.reqs[i]? with
    | none => simpa [stepEv, fireTimeout, hr] using h
    | some r =>
      by_cases ha : r.timerArmed = true
      · simp only [stepEv, fireTimeout_armed st i r hr ha]
        intro p hp
        rw [settleCell_table, disarmTimer_table] at hp
        simp only at hp
        rcases mem_mapDel _ _ _ hp with ⟨hpm, hpne⟩
        rcases h p hpm with ⟨rp, hp1, hp2, hp3, hp4⟩
        have hne : i ≠ p.2 := by
          intro hcontra
          subst hcontra
          rw [hr] at hp1
          injection hp1 with hcast
          apply hpne
          rw [← hp2, ← hcast]
        refine ⟨rp, ?_, hp2, hp3, hp4⟩
        rw [settleCell_get?_ne _ i _ p.2 hne, disarmTimer_get?_ne _ i p.2 hne]
        exact hp1
      · simpa [stepEv, fireTimeout, hr, ha] using h
  | sockState r =>
    intro p hp
    exact h p hp

/-- Both invariants bundled. -/
def stInv (st : MState) : Prop := TableWF st ∧ SettleInv st

theorem stInv_step (st : MState) (e : Ev) (h : stInv st) : stInv (stepEv st e) :=
  ⟨tableWF_step st e h.1, settleInv_step st e h.2⟩

theorem stInv_runEvs (st : MState) (h : stInv st) (evs : List Ev) :
    stInv (runEvs st evs) := by
  induction evs generalizing st with
  | nil => exact h
  | cons e t ih => exact ih (stepEv st e) (stInv_step st e h)

theorem stInv_mkManager (op : CtorOpts) : stInv (mkManager op) := by
  constructor
  · intro p hp
    simp [mkManager] at hp
  · intro i
    simp [mkManager, cellCount]

/-- States the event loop can actually reach from a constructed manager. -/
def ReachableState (st : MState) : Prop :=
  ∃ op evs, st = runEvs (mkManager op) evs

theorem reachable_inv (st : MState) (h : ReachableState st) : stInv st := by
  rcases h with ⟨op, evs, rfl⟩
  exact stInv_runEvs (mkManager op) (stInv_mkManager op) evs

theorem settled_once (st : MState) (h : SettleInv st) (i : Nat) :
    st.settledLog.count i ≤ 1 := by
  rw [h i]
  unfold cellCount
  split
  · split <;> simp
  · simp

/-! ### Identities issued over a run, and fields never reassigned -/

/-- The request ids ever assigned by submissions that reached registration,
in order of creation. -/
def issuedIds (st : MState) : List String := st.reqs.map (fun r => r.rid)

theorem issued_settleCell (st : MState) (i : Nat) (s : Settlement) :
    issuedIds (settleCell st i s) = issuedIds st := by
  cases hr : st.reqs[i]? with
  | none => simp [settleCell, hr, issuedIds]
  | some r =>
    cases hc : r.cell with
    | none =>
      simp [settleCell, hr, hc, issuedIds,
            map_rid_set st.reqs i r { r with cell := some s } hr rfl]
    | some x => simp [settleCell, hr, hc, issuedIds]

theorem issued_disarm (st : MState) (i : Nat) :
    issuedIds (disarmTimer st i) = issuedIds st := by
  cases hr : st.reqs[i]? with
  | none => simp [disarmTimer, hr, issuedIds]
  | some r =>
    simp [disarmTimer, hr, issuedIds,
          map_rid_set st.reqs i r { r with timerArmed := false } hr rfl]

theorem issued_step_submit_open (st : MState) (path rid : String) (pl : RawPayload)
    (h : st.ready = some ReadyState.opened) :
    issuedIds (stepEv st (Ev.submit path rid pl)) = issuedIds st ++ [rid] := by
  rw [stepEv_submit_open st path rid pl h]
  simp [issuedIds]

theorem issued_step_other (st : MState) (e : Ev)
    (h : ∀ path rid pl, e ≠ Ev.submit path rid pl) :
    issuedIds (stepEv st e) = issuedIds st := by
  cases e with
  | submit path rid pl => exact absurd rfl (h path rid pl)
  | msg w =>
    cases w with
    | malformed => simp [stepEv, handleMessage]
    | resp rid f =>
      cases hg : mapGet st.table rid with
      | none => simp [stepEv, handleMessage_unknown st rid f hg]
      | some i =>
        simp only [stepEv, handleMessage_known st rid f i hg]
        show issuedIds { disarmTimer (settleCell st i (respSettlement f)) i
                         with table := mapDel st.table rid } = issuedIds st
        rw [show issuedIds { disarmTimer (settleCell st i (respSettlement f)) i
              with table := mapDel st.table rid } =
            issuedIds (disarmTimer (settleCell st i (respSettlement f)) i) from rfl]
        rw [issued_disarm, issued_settleCell]
  | timeout i =>
    cases hr : st.reqs[i]? with
    | none => simp [stepEv, fireTimeout, hr]
    | some r =>
      by_cases ha : r.timerArmed = true
      · simp only [stepEv, fireTimeout_armed st i r hr ha]
        rw [issued_settleCell, issued_disarm]
        rfl
      · simp [stepEv, fireTimeout, hr, ha]
  | sockState r => simp [stepEv, issuedIds]

/-- The requestId drawn by each submit event of a trace. -/
def submitRids (evs : List Ev) : List String :=
  evs.filterMap (fun e =>
    match e with
    | Ev.submit _ rid _ => some rid
    | _ => none)

theorem issued_runEvs_sublist (st : MState) (evs : List Ev) :
    List.Sublist (issuedIds (runEvs st evs)) (issuedIds st ++ submitRids evs) := by
  induction evs generalizing st with
  | nil => simp [runEvs]
  | cons e t ih =>
    have step : runEvs st (e :: t) = runEvs (stepEv st e) t := rfl
    rw [step]
    cases e with
    | submit path rid pl =>
      have hsub : submitRids (Ev.submit path rid pl :: t) = rid :: submitRids t := by
        simp [submitRids]
      by_cases hr : st.ready = some ReadyState.opened
      · have := ih (stepEv st (Ev.submit path rid pl))
        rw [issued_step_submit_open st path rid pl hr] at this
        rw [hsub]
        simpa [List.append_assoc] using this
      · rw [stepEv_submit_closed st path rid pl hr, hsub]
        exact (ih st).trans
          ((List.append_sublist_append_left _).mpr (List.sublist_cons_self _ _))
    | msg w =>
      have := ih (stepEv st (Ev.msg w))
      rw [issued_step_other st (Ev.msg w) (by intro a b c h; cases h)] at this
      simpa [submitRids] using this
    | timeout i =>
      have := ih (stepEv st (Ev.timeout i))
      rw [issued_step_other st (Ev.timeout i) (by intro a b c h; cases h)] at this
      simpa [submitRids] using this
    | sockState r =>
      have := ih (stepEv st (Ev.sockState r))
      rw [issued_step_other st (Ev.sockState r) (by intro a b c h; cases h)] at this
      simpa [submitRids] using this

/-- auth and socketAddress are never reassigned by any event. -/
theorem stepEv_const_fields (st : MState) (e : Ev) :
    (stepEv st e).auth = st.auth ∧
    (stepEv st e).socketAddress = st.socketAddress := by
  cases e with
  | submit path rid pl =>
    by_cases hr : st.ready = some ReadyState.opened
    · rw [stepEv_submit_open st path rid pl hr]
      exact ⟨rfl, rfl⟩
    · rw [stepEv_submit_closed st path rid pl hr]
      exact ⟨rfl, rfl⟩
  | msg w =>
    cases w with
    | malformed => exact ⟨rfl, rfl⟩
    | resp rid f =>
      cases hg : mapGet st.table rid with
      | none => simp [stepEv, handleMessage_unknown st rid f hg]
      | some i =>
        simp only [stepEv, handleMessage_known st rid f i hg]
        have h1 := settleCell_frame st i (respSettlement f)
        have h2 := disarmTimer_frame (settleCell st i (respSettlement f)) i
        exact ⟨h2.1.trans h1.1, h2.2.1.trans h1.2.1⟩
  | timeout i =>
    cases hr : st.reqs[i]? with
    | none => simp [stepEv, fireTimeout, hr]
    | some r =>
      by_cases ha : r.timerArmed = true
      · simp only [stepEv, fireTimeout_armed st i r hr ha]
        have h1 := disarmTimer_frame { st with table := mapDel st.table r.rid } i
        have h2 := settleCell_frame
          (disarmTimer { st with table := mapDel st.table r.rid } i) i Settlement.timedOut
        exact ⟨by rw [h2.1, h1.1], by rw [h2.2.1, h1.2.1]⟩
      · simp [stepEv, fireTimeout, hr, ha]
  | sockState r => exact ⟨rfl, rfl⟩

theorem runEvs_const_fields (st : MState) (evs : List Ev) :
    (runEvs st evs).auth = st.auth ∧
    (runEvs st evs).socketAddress = st.socketAddress := by
  induction evs generalizing st with
  | nil => exact ⟨rfl, rfl⟩
  | cons e t ih =>
    have h1 := stepEv_const_fields st e
    have h2 := ih (stepEv st e)
    exact ⟨h2.1.trans h1.1, h2.2.trans h1.2⟩

theorem reachable_step (st : MState) (e : Ev) (h : ReachableState st) :
    ReachableState (stepEv st e) := by
  rcases h with ⟨op, evs, rfl⟩
  exact ⟨op, evs ++ [e], by simp [runEvs, List.foldl_append]⟩

theorem reachable_runEvs (st : MState) (evs : List Ev) (h : ReachableState st) :
    ReachableState (runEvs st evs) := by
  rcases h with ⟨op, evs0, rfl⟩
  exact ⟨op, evs0 ++ evs, by simp [runEvs, List.foldl_append]⟩

theorem mapGet_mapDel_self (m : List (String × Nat)) (k : String) :
    mapGet (mapDel m k) k = none := by
  cases hg : mapGet (mapDel m k) k with
  | none => rfl
  | some v => exact absurd (mapGet_mem _ _ _ hg) (not_mem_mapDel m k v)

/-- A state in which one request with id r1 is pending, used as a concrete
input by the witnesses. -/
def stP : MState :=
  runEvs (mkManager (CtorOpts.mk "u" "a" none none))
    [Ev.sockState (some ReadyState.opened), Ev.submit "p" "r1" RawPayload.all]

/-! ### Claim theorems -/

/-- C2: an inbound response envelope whose requestId matches no entry of the
pending table (already timed out, already settled, or never issued) is a
no-op: the listener neither raises nor changes any entry, timer or log — the
whole state is returned unchanged. -/
theorem C2_unknown_response_noop (st : MState) (rid : String) (f : RespField)
    (h : mapGet st.table rid = none) :
    handleMessage st (Wire.resp rid f) = HRes.ok st :=
  handleMessage_unknown st rid f h

theorem C2_unknown_response_noop_witness :
    mapGet mgr1.table "zz" = none ∧
    handleMessage mgr1 (Wire.resp "zz" (RespField.dataF Val.undef)) = HRes.ok mgr1 :=
  ⟨by decide, C2_unknown_response_noop mgr1 "zz" (RespField.dataF Val.undef) (by decide)⟩

/-- C7: while the socket is not open (absent, connecting, closing or closed)
makeReq throws at once — nothing is registered, nothing is sent, nothing is
queued (the state is unchanged) — every operation routed through it fails,
and createDatabase throws instead of deferring. -/
theorem C7_not_open_rejects (st : MState)
    (h : ¬ st.ready = some ReadyState.opened) :
    (∀ path rid pl, makeReq st path rid pl = Except.error DbErr.socketClosed ∧
        stepEv st (Ev.submit path rid pl) = st) ∧
    (∀ path rid key, isOkE (DatabaseV1.has st path rid key) = false) ∧
    (∀ path, createDatabase st path = Except.error DbErr.notConnected) := by
  refine ⟨?_, ?_, ?_⟩
  · intro path rid pl
    exact ⟨by simp [makeReq, h], stepEv_submit_closed st path rid pl h⟩
  · intro path rid key
    by_cases hk : key.length = 0
    · simp [DatabaseV1.has, keyCheckV1, hk, isOkE, Bind.bind, Except.bind]
    · simp [DatabaseV1.has, keyCheckV1, hk, makeReq, h, isOkE, Bind.bind, Except.bind]
  · intro path
    simp [createDatabase, h]

theorem C7_not_open_rejects_witness :
    (¬ (mkManager (CtorOpts.mk "u" "a" none none)).ready = some ReadyState.opened) ∧
    ((∀ path rid pl,
        makeReq (mkManager (CtorOpts.mk "u" "a" none none)) path rid pl =
          Except.error DbErr.socketClosed ∧
        stepEv (mkManager (CtorOpts.mk "u" "a" none none)) (Ev.submit path rid pl) =
          mkManager (CtorOpts.mk "u" "a" none none)) ∧
     (∀ path rid key,
        isOkE (DatabaseV1.has (mkManager (CtorOpts.mk "u" "a" none none)) path rid key)
          = false) ∧
     (∀ path, createDatabase (mkManager (CtorOpts.mk "u" "a" none none)) path =
        Except.error DbErr.notConnected)) :=
  ⟨by decide, C7_not_open_rejects (mkManager (CtorOpts.mk "u" "a" none none)) (by decide)⟩

/-- C10: with a port the socket address is the ws template string, with the
wss scheme exactly when secure is true; without a port it is the url
unchanged; and neither auth nor socketAddress is ever reassigned by any
later event. -/
theorem C10_socket_address (op : CtorOpts) :
    (∀ p, op.port = some p →
      (mkManager op).socketAddress =
        (if op.secure = some true then "wss://" else "ws://") ++ op.url ++ ":" ++ toString p) ∧
    (op.port = none → (mkManager op).socketAddress = op.url) ∧
    (∀ evs, (runEvs (mkManager op) evs).auth = op.auth ∧
            (runEvs (mkManager op) evs).socketAddress = (mkManager op).socketAddress) := by
  refine ⟨?_, ?_, ?_⟩
  · intro p hp
    show socketAddressOf op = _
    by_cases hs : op.secure = some true
    · simp only [socketAddressOf, hp, hs, if_pos]
      rfl
    · simp only [socketAddressOf, hp, if_neg hs]
      rfl
  · intro hp
    show socketAddressOf op = _
    simp [socketAddressOf, hp]
  · intro evs
    exact runEvs_const_fields (mkManager op) evs

theorem C10_socket_address_witness :
    ((mkManager (CtorOpts.mk "h" "a" (some 8080) none)).socketAddress = "ws://h:8080") ∧
    ((mkManager (CtorOpts.mk "h" "a" (some 8080) (some true))).socketAddress = "wss://h:8080") ∧
    ((mkManager (CtorOpts.mk "h" "a" none none)).socketAddress = "h") := by
  refine ⟨?_, ?_, ?_⟩
  · have := (C10_socket_address (CtorOpts.mk "h" "a" (some 8080) none)).1 8080 rfl
    simpa using this
  · have := (C10_socket_address (CtorOpts.mk "h" "a" (some 8080) (some true))).1 8080 rfl
    simpa using this
  · exact (C10_socket_address (CtorOpts.mk "h" "a" none none)).2.1 rfl

/-- C8 counterexample: the claim says the dispatch handler discards a
message it cannot parse without raising; but the listener has no try/catch,
so JSON.parse throwing on a malformed message escapes the listener — at the
concrete state mgr1 the handler raises. -/
theorem C8_malformed_raises_cex :
    ¬ (∀ st : MState, handleMessage st Wire.malformed ≠ HRes.raised) := by
  intro h
  exact h mgr1 rfl

/-- C8 amended: a message that parses to an envelope with an unknown
requestId is discarded without raising and without any state change; a
message that fails JSON.parse makes the listener raise; and a parsed message
for a known pending requestId carrying neither data nor error is treated as
a data response — the entry is resolved with the undefined value and
removed. -/
theorem C8_dispatch_amended (st : MState) (rid : String) (f : RespField)
    (i : Nat) (r : ReqRec) :
    (mapGet st.table rid = none → handleMessage st (Wire.resp rid f) = HRes.ok st) ∧
    handleMessage st Wire.malformed = HRes.raised ∧
    (mapGet st.table rid = some i → st.reqs[i]? = some r → r.cell = none →
      ∃ st2, handleMessage st (Wire.resp rid RespField.neitherF) = HRes.ok st2 ∧
        st2.reqs[i]? = some (ReqRec.mk r.rid (some (Settlement.value Val.undef)) false) ∧
        mapGet st2.table rid = none) := by
  refine ⟨handleMessage_unknown st rid f, rfl, ?_⟩
  intro h1 h2 h3
  refine ⟨_, handleMessage_known st rid RespField.neitherF i h1, ?_, ?_⟩
  · show (disarmTimer (settleCell st i (respSettlement RespField.neitherF)) i).reqs[i]? = _
    have hs := settleCell_get?_self st i (respSettlement RespField.neitherF) r h2 h3
    rw [disarmTimer_get?_self _ i _ hs]
    rfl
  · show mapGet (mapDel st.table rid) rid = none
    exact mapGet_mapDel_self st.table rid

theorem C8_dispatch_amended_witness :
    (handleMessage mgr1 (Wire.resp "zz" (RespField.dataF Val.undef)) = HRes.ok mgr1) ∧
    (handleMessage mgr1 Wire.malformed = HRes.raised) ∧
    (∃ st2, handleMessage stP (Wire.resp "r1" RespField.neitherF) = HRes.ok st2 ∧
      st2.reqs[0]? = some (ReqRec.mk "r1" (some (Settlement.value Val.undef)) false) ∧
      mapGet st2.table "r1" = none) :=
  ⟨(C8_dispatch_amended mgr1 "zz" (RespField.dataF Val.undef) 0
      (ReqRec.mk "" none true)).1 (by decide),
   (C8_dispatch_amended mgr1 "zz" (RespField.dataF Val.undef) 0
      (ReqRec.mk "" none true)).2.1,
   (C8_dispatch_amended stP "r1" RespField.neitherF 0
      (ReqRec.mk "r1" none true)).2.2 (by decide) (by decide) (by decide)⟩

/-- C9 counterexample: the claim orders one submission as registration, then
timer start, then send; but makeReq performs requests.set, then
webSocket.send, then setTimeout, so the action list of a concrete successful
submission differs from the claimed order. -/
theorem C9_order_cex :
    ¬ (∀ (st : MState) (path rid : String) (pl : RawPayload)
        (st1 : MState) (i : Nat) (evts : List SubEv),
        makeReq st path rid pl = Except.ok (st1, i, evts) →
        evts = [SubEv.register rid, SubEv.timerStart rid,
                SubEv.send (Payload.mk rid path pl)]) := by
  intro h
  have hm := makeReq_ok mgr1 "p" "r" RawPayload.all rfl
  have := h mgr1 "p" "r" RawPayload.all _ _ _ hm
  exact absurd this (by decide)

/-- C9 amended: within one successful submission the order is registration,
then the wire send, then the timer start; and afterwards at most one of
response dispatch and timeout firing settles the request (its settlement is
recorded at most once in any continuation of the run). -/
theorem C9_order_amended (st : MState) (hreach : ReachableState st)
    (path rid : String) (pl : RawPayload) (st1 : MState) (i : Nat)
    (evts : List SubEv)
    (h : makeReq st path rid pl = Except.ok (st1, i, evts)) :
    evts = [SubEv.register rid, SubEv.send (Payload.mk rid path pl),
            SubEv.timerStart rid] ∧
    ∀ evs, (runEvs st1 evs).settledLog.count i ≤ 1 := by
  by_cases hr : st.ready = some ReadyState.opened
  · rw [makeReq_ok st path rid pl hr] at h
    injection h with h'
    rw [Prod.ext_iff] at h'
    rcases h' with ⟨hst, h''⟩
    rw [Prod.ext_iff] at h''
    rcases h'' with ⟨hi, hevts⟩
    refine ⟨hevts.symm, ?_⟩
    intro evs
    have hst1 : st1 = stepEv st (Ev.submit path rid pl) := by
      rw [stepEv_submit_open st path rid pl hr]
      exact hst.symm
    have hreach1 : ReachableState (runEvs st1 evs) := by
      rw [hst1]
      exact reachable_runEvs _ evs (reachable_step st _ hreach)
    exact settled_once _ (reachable_inv _ hreach1).2 i
  · simp [makeReq, hr] at h

theorem C9_order_amended_witness :
    ∃ st1 evts, makeReq mgr1 "p" "r" RawPayload.all = Except.ok (st1, 0, evts) ∧
      evts = [SubEv.register "r", SubEv.send (Payload.mk "r" "p" RawPayload.all),
              SubEv.timerStart "r"] ∧
      ∀ evs, (runEvs st1 evs).settledLog.count 0 ≤ 1 :=
  ⟨_, _, makeReq_ok mgr1 "p" "r" RawPayload.all rfl,
    C9_order_amended mgr1
      ⟨CtorOpts.mk "u" "a" none none, [Ev.sockState (some ReadyState.opened)], rfl⟩
      "p" "r" RawPayload.all _ 0 _ (makeReq_ok mgr1 "p" "r" RawPayload.all rfl)⟩

/-- C5: in src/src/database.ts the deleteMany validation loop iterates with
for-in, so it tests the array index strings instead of the keys and never
rejects; deleteMany submits a DELETE_MANY request even for the invalid input
containing the empty-string key, while getMany of the same file and the
validateArrayOfKeys-based deleteMany of src/unnamed/part_002 reject it at
index 0 — the claim states the intended behaviour and this evaluation
exhibits the slip. -/
theorem C5_deleteMany_dead_check :
    isOkE (DatabaseV1.deleteMany mgr1 "p" "r1" [""]) = true ∧
    (∃ st1 i evts, DatabaseV1.deleteMany mgr1 "p" "r1" [""] = Except.ok (st1, i, evts) ∧
        st1.sent = [Payload.mk "r1" "p" (RawPayload.deleteMany [""])]) ∧
    DatabaseV1.getMany mgr1 "p" "r1" [""] = Except.error (DbErr.invalidKeyAt 0) ∧
    validateArrayOfKeys [""] = Except.error (DbErr.invalidKeyAt 0) ∧
    DatabaseV2.deleteMany mgr1 "p" "r1" [""] = Except.error (DbErr.invalidKeyAt 0) := by
  refine ⟨by decide, ⟨_, _, _, rfl, by decide⟩, by decide, by decide, by decide⟩

/-- C4: for a key of length 0 or above 255, each of has, get, set and delete
of the validateKey-based Database throws the invalid-key error synchronously
— the Except.error result means makeReq is never reached, so nothing is
registered or sent — and identically for every configured or absent value
validator; every key of length 1 to 255 passes the structural check. -/
theorem C4_key_validation (key : String) (schema : Option (Val → Bool))
    (st : MState) (path rid : String) (v : Val) :
    (key.length = 0 ∨ 255 < key.length →
      DatabaseV2.has st path rid key = Except.error DbErr.invalidKey ∧
      DatabaseV2.get st path rid key = Except.error DbErr.invalidKey ∧
      DatabaseV2.set schema st path rid key v = Except.error DbErr.invalidKey ∧
      DatabaseV2.del st path rid key = Except.error DbErr.invalidKey) ∧
    (1 ≤ key.length → key.length ≤ 255 → validateKey key = true) := by
  constructor
  · intro h
    have hv : validateKey key = false := by
      rcases h with h | h <;> simp [validateKey, h]
    refine ⟨?_, ?_, ?_, ?_⟩ <;>
      simp [DatabaseV2.has, DatabaseV2.get, DatabaseV2.set, DatabaseV2.del,
            validateKeyE, hv, Bind.bind, Except.bind]
  · intro h1 h2
    simp [validateKey]
    omega

set_option maxRecDepth 4000 in
theorem C4_key_validation_witness :
    ((String.mk (List.replicate 256 'x')).length = 0 ∨
        255 < (String.mk (List.replicate 256 'x')).length) ∧
    DatabaseV2.get mgr1 "p" "r" (String.mk (List.replicate 256 'x')) =
      Except.error DbErr.invalidKey ∧
    DatabaseV2.has mgr1 "p" "r" "" = Except.error DbErr.invalidKey ∧
    validateKey "ok" = true := by
  have h256 : (String.mk (List.replicate 256 'x')).length = 0 ∨
      255 < (String.mk (List.replicate 256 'x')).length := by
    right
    show 255 < (List.replicate 256 'x').length
    simp
  refine ⟨h256, ?_, ?_, ?_⟩
  · exact ((C4_key_validation (String.mk (List.replicate 256 'x')) none mgr1 "p" "r"
      Val.undef).1 h256).2.1
  · exact ((C4_key_validation "" none mgr1 "p" "r" Val.undef).1 (Or.inl rfl)).1
  · exact (C4_key_validation "ok" none mgr1 "p" "r" Val.undef).2 (by decide) (by decide)

/-- C3 counterexample: the claim asserts that identities of distinct
submissions are never equal, but the client takes randomUUID outputs as they
come and performs no collision check, so a run in which the environment
draws the same id twice registers two requests under equal ids. -/
theorem C3_duplicate_ids_cex :
    ¬ (∀ (op : CtorOpts) (evs : List Ev),
        (issuedIds (runEvs (mkManager op) evs)).Nodup) := by
  intro h
  have := h (CtorOpts.mk "u" "a" none none)
    [Ev.sockState (some ReadyState.opened), Ev.submit "p" "x" RawPayload.all,
     Ev.submit "p" "x" RawPayload.all]
  exact absurd this (by decide)

/-- C3 amended: provided the id generator never repeats (the submit events
of the trace carry pairwise distinct ids), all identities ever issued are
pairwise distinct; moreover every key outstanding in the pending table is
one of the issued identities, so a fresh identity — one not equal to any id
issued before — cannot collide with an outstanding entry. -/
theorem C3_unique_ids_amended (op : CtorOpts) (evs : List Ev)
    (h : (submitRids evs).Nodup) :
    (issuedIds (runEvs (mkManager op) evs)).Nodup ∧
    (∀ k j, (k, j) ∈ (runEvs (mkManager op) evs).table →
       k ∈ issuedIds (runEvs (mkManager op) evs)) ∧
    (∀ k, k ∉ issuedIds (runEvs (mkManager op) evs) →
       ∀ j, (k, j) ∉ (runEvs (mkManager op) evs).table) := by
  have hsub := issued_runEvs_sublist (mkManager op) evs
  have hnil : issuedIds (mkManager op) = [] := rfl
  rw [hnil] at hsub
  simp only [List.nil_append] at hsub
  have hWF := (reachable_inv _ ⟨op, evs, rfl⟩).1
  have hmem : ∀ k j, (k, j) ∈ (runEvs (mkManager op) evs).table →
      k ∈ issuedIds (runEvs (mkManager op) evs) := by
    intro k j hkj
    rcases hWF (k, j) hkj with ⟨r, hr1, hr2, _, _⟩
    have hrin : r ∈ (runEvs (mkManager op) evs).reqs := List.getElem?_mem hr1
    rw [show k = r.rid from hr2.symm]
    exact List.mem_map_of_mem _ hrin
  exact ⟨hsub.nodup h, hmem, fun k hk j hkj => hk (hmem k j hkj)⟩

theorem C3_unique_ids_amended_witness :
    (submitRids [Ev.sockState (some ReadyState.opened),
        Ev.submit "p" "a" RawPayload.all, Ev.submit "p" "b" RawPayload.all]).Nodup ∧
    (issuedIds (runEvs (mkManager (CtorOpts.mk "u" "a" none none))
        [Ev.sockState (some ReadyState.opened),
         Ev.submit "p" "a" RawPayload.all, Ev.submit "p" "b" RawPayload.all])).Nodup :=
  ⟨by decide,
   (C3_unique_ids_amended (CtorOpts.mk "u" "a" none none)
      [Ev.sockState (some ReadyState.opened),
       Ev.submit "p" "a" RawPayload.all, Ev.submit "p" "b" RawPayload.all]
      (by decide)).1⟩

/-- C1: the expiry window is the fixed 2500 ms constant; in every reachable
state every key of the pending table names a request that is still pending
(unset cell, armed timer) — a settled or timed-out request is never
observably present — and when the expiry of a tabled request fires, the
caller observes the timeout rejection and the id is absent from the table
immediately after. -/
theorem C1_timeout_removes (st : MState) (hreach : ReachableState st)
    (rid : String) (i : Nat) (h : (rid, i) ∈ st.table) :
    requestTimeoutMs = 2500 ∧
    (∀ p ∈ st.table, ∃ r, st.reqs[p.2]? = some r ∧ r.rid = p.1 ∧
        r.cell = none ∧ r.timerArmed = true) ∧
    (stepEv st (Ev.timeout i)).reqs[i]? =
      some (ReqRec.mk rid (some Settlement.timedOut) false) ∧
    (∀ j, (rid, j) ∉ (stepEv st (Ev.timeout i)).table) := by
  have hWF := (reachable_inv st hreach).1
  rcases hWF (rid, i) h with ⟨r, hr1, hr2, hr3, hr4⟩
  refine ⟨rfl, hWF, ?_, ?_⟩
  · simp only [stepEv, fireTimeout_armed st i r hr1 hr4]
    have hd : (disarmTimer { st with table := mapDel st.table r.rid } i).reqs[i]? =
        some { r with timerArmed := false } := disarmTimer_get?_self _ i r hr1
    have hs := settleCell_get?_self _ i Settlement.timedOut _ hd (by simp [hr3])
    rw [hs]
    simp only [hr2]
  · intro j hj
    simp only [stepEv, fireTimeout_armed st i r hr1 hr4] at hj
    rw [show (settleCell (disarmTimer { st with table := mapDel st.table r.rid } i) i
          Settlement.timedOut).table = mapDel st.table r.rid from
        (settleCell_table _ _ _).trans (disarmTimer_table _ _)] at hj
    rw [show r.rid = rid from hr2] at hj
    exact not_mem_mapDel st.table rid j hj

theorem C1_timeout_removes_witness :
    ("r1", 0) ∈ stP.table ∧
    (requestTimeoutMs = 2500 ∧
     (∀ p ∈ stP.table, ∃ r, stP.reqs[p.2]? = some r ∧ r.rid = p.1 ∧
         r.cell = none ∧ r.timerArmed = true) ∧
     (stepEv stP (Ev.timeout 0)).reqs[0]? =
       some (ReqRec.mk "r1" (some Settlement.timedOut) false) ∧
     (∀ j, ("r1", j) ∉ (stepEv stP (Ev.timeout 0)).table)) :=
  ⟨by decide,
   C1_timeout_removes stP
     ⟨CtorOpts.mk "u" "a" none none,
      [Ev.sockState (some ReadyState.opened), Ev.submit "p" "r1" RawPayload.all], rfl⟩
     "r1" 0 (by decide)⟩

/-- C6: for every valid key (length 1 to 255) and open connection, each of
has, get and delete performs exactly one submission: the result is a single
registration at a fresh index, exactly one wire payload appended to the sent
log — whose method field is HAS, GET and DELETE respectively (has sends a
HAS payload, not a GET) and which carries the bound path — with the request
settled at most once in any continuation, and a data response for the id
resolving the entry with exactly the data the server supplied. -/
theorem C6_single_submission (st : MState) (hreach : ReachableState st)
    (path rid key : String)
    (hready : st.ready = some ReadyState.opened)
    (hkey : 1 ≤ key.length ∧ key.length ≤ 255) :
    (RawPayload.has key).method = "HAS" ∧
    (RawPayload.get key).method = "GET" ∧
    (RawPayload.del key).method = "DELETE" ∧
    DatabaseV1.has st path rid key =
      Except.ok (stepEv st (Ev.submit path rid (RawPayload.has key)), st.reqs.length,
        [SubEv.register rid, SubEv.send (Payload.mk rid path (RawPayload.has key)),
         SubEv.timerStart rid]) ∧
    DatabaseV1.get st path rid key =
      Except.ok (stepEv st (Ev.submit path rid (RawPayload.get key)), st.reqs.length,
        [SubEv.register rid, SubEv.send (Payload.mk rid path (RawPayload.get key)),
         SubEv.timerStart rid]) ∧
    DatabaseV1.del st path rid key =
      Except.ok (stepEv st (Ev.submit path rid (RawPayload.del key)), st.reqs.length,
        [SubEv.register rid, SubEv.send (Payload.mk rid path (RawPayload.del key)),
         SubEv.timerStart rid]) ∧
    (stepEv st (Ev.submit path rid (RawPayload.has key))).sent
      = st.sent ++ [Payload.mk rid path (RawPayload.has key)] ∧
    (stepEv st (Ev.submit path rid (RawPayload.has key))).reqs.length
      = st.reqs.length + 1 ∧
    (∀ evs, (runEvs (stepEv st (Ev.submit path rid (RawPayload.has key)))
        evs).settledLog.count st.reqs.length ≤ 1) ∧
    (∀ v, ∃ st2,
        handleMessage (stepEv st (Ev.submit path rid (RawPayload.has key)))
          (Wire.resp rid (RespField.dataF v)) = HRes.ok st2 ∧
        st2.reqs[st.reqs.length]? =
          some (ReqRec.mk rid (some (Settlement.value v)) false)) := by
  have hk0 : ¬ key.length = 0 := by omega
  have hchk : keyCheckV1 key = Except.ok () := by simp [keyCheckV1, hk0]
  have hop : ∀ pl, (keyCheckV1 key >>= fun _ => makeReq st path rid pl) =
      makeReq st path rid pl := by
    intro pl
    rw [hchk]
    rfl
  refine ⟨rfl, rfl, rfl, ?_, ?_, ?_, ?_, ?_, ?_, ?_⟩
  · rw [show DatabaseV1.has st path rid key =
        makeReq st path rid (RawPayload.has key) from hop _,
        makeReq_ok st path rid _ hready, stepEv_submit_open st path rid _ hready]
  · rw [show DatabaseV1.get st path rid key =
        makeReq st path rid (RawPayload.get key) from hop _,
        makeReq_ok st path rid _ hready, stepEv_submit_open st path rid _ hready]
  · rw [show DatabaseV1.del st path rid key =
        makeReq st path rid (RawPayload.del key) from hop _,
        makeReq_ok st path rid _ hready, stepEv_submit_open st path rid _ hready]
  · rw [stepEv_submit_open st path rid _ hready]
  · rw [stepEv_submit_open st path rid _ hready]
    simp
  · intro evs
    have hreach1 : ReachableState
        (runEvs (stepEv st (Ev.submit path rid (RawPayload.has key))) evs) :=
      reachable_runEvs _ evs (reachable_step st _ hreach)
    exact settled_once _ (reachable_inv _ hreach1).2 st.reqs.length
  · intro v
    rw [stepEv_submit_open st path rid _ hready]
    have hmap : mapGet (mapSet st.table rid st.reqs.length) rid = some st.reqs.length :=
      mapGet_mapSet_self st.table rid st.reqs.length
    have hget : (st.reqs ++ [ReqRec.mk rid none true])[st.reqs.length]? =
        some (ReqRec.mk rid none true) := List.getElem?_concat_length _ _
    refine ⟨_, handleMessage_known _ rid (RespField.dataF v) st.reqs.length hmap, ?_⟩
    have hs := settleCell_get?_self
      { st with reqs := st.reqs ++ [ReqRec.mk rid none true],
                table := mapSet st.table rid st.reqs.length,
                sent := st.sent ++ [Payload.mk rid path (RawPayload.has key)] }
      st.reqs.length (respSettlement (RespField.dataF v)) (ReqRec.mk rid none true)
      hget rfl
    show (disarmTimer (settleCell _ st.reqs.length
        (respSettlement (RespField.dataF v))) st.reqs.length).reqs[st.reqs.length]? = _
    rw [disarmTimer_get?_self _ st.reqs.length _ hs]
    rfl

theorem C6_single_submission_witness :
    mgr1.ready = some ReadyState.opened ∧ (1 ≤ ("k" : String).length ∧ ("k" : String).length ≤ 255) ∧
    DatabaseV1.has mgr1 "p" "r" "k" =
      Except.ok (stepEv mgr1 (Ev.submit "p" "r" (RawPayload.has "k")), 0,
        [SubEv.register "r", SubEv.send (Payload.mk "r" "p" (RawPayload.has "k")),
         SubEv.timerStart "r"]) ∧
    (RawPayload.has "k").method = "HAS" :=
  ⟨rfl, ⟨by decide, by decide⟩,
   by
    have := C6_single_submission mgr1
      ⟨CtorOpts.mk "u" "a" none none, [Ev.sockState (some ReadyState.opened)], rfl⟩
      "p" "r" "k" rfl ⟨by decide, by decide⟩
    exact this.2.2.2.1,
   by
    have := C6_single_submission mgr1
      ⟨CtorOpts.mk "u" "a" none none, [Ev.sockState (some ReadyState.opened)], rfl⟩
      "p" "r" "k" rfl ⟨by decide, by decide⟩
    exact this.1⟩
